import Mathlib

/-!
Verification of the `optschedule` repository (files `optschedule/schedule.py`
and `optschedule/schedules.py`) against its natural-language specification.

The numeric model: numpy floating-point arrays are embedded as `List ℚ`
(exact rational arithmetic) wherever the source only uses field operations,
`floor`, `ceil`, `min`/`max` and integer powers; methods whose formulas need
`cos`, `π` or a real-exponent power (`numpy.power` with non-integral
exponent) are embedded over `ℝ` with `Real.cos`, `Real.pi` and `Real.rpow`.
Python `raise ValueError` is embedded as `Except.error`.  In-place array
mutation (`sequence[i] = ...` inside a `for` loop, slice assignment) is
embedded with `List.set` via an explicit loop combinator.
-/

/-- Embedding of `numpy.linspace(start, stop, num)` over exact rationals:
`num` evenly spaced points from `start` to `stop` with both endpoints
included; `num = 1` gives `[start]` and `num = 0` gives `[]`. -/
def linspace (start stop : ℚ) (num : ℕ) : List ℚ :=
  if num ≤ 1 then List.replicate num start
  else (List.range num).map fun i : ℕ =>
    start + (stop - start) * (i : ℚ) / ((num : ℚ) - 1)

/-- The `Schedule` class of `schedule.py`: instance variables `n_steps`
(an int) and `steps` (an ndarray, embedded as `List ℚ`). -/
structure Schedule where
  n_steps : ℕ
  steps : List ℚ
  deriving Repr, DecidableEq

/-- `Schedule.__init__` (schedule.py lines 22-31):
`self.n_steps = n_steps; self.steps = np.linspace(0, n_steps, n_steps)`. -/
def Schedule.init (n_steps : ℕ) : Schedule :=
  ⟨n_steps, linspace 0 n_steps n_steps⟩

/-- Loop combinator for the Python pattern
`for i in range(m): sequence[i + 1] = body(sequence, i)` acting on a list
through `List.set`; iterations run in increasing order of `i`. -/
def setLoop (f : List ℚ → ℕ → ℚ) : ℕ → List ℚ → List ℚ
  | 0, seq => seq
  | m + 1, seq =>
    let prev := setLoop f m seq
    prev.set (m + 1) (f prev m)

/-- Embedding of the statement
`sequence[boundaries[v]:boundaries[v+1]] = np.full(boundaries[v+1] -
boundaries[v], values[v])` of the source, with numpy's error paths: the
right-hand side `np.full(b - a, v)` is evaluated first and raises
`ValueError: negative dimensions are not allowed` when `b - a < 0`; the
destination slice `sequence[a:b]` clamps `a` and `b` to the list bounds;
the assignment then requires the source length `b - a` to equal the slice
length, or to be `1` (numpy broadcasting), and raises a broadcast
`ValueError` otherwise; on success every slice position is overwritten
with the fill value. -/
def assignSliceFull (seq : List ℚ) (a b : ℕ) (v : ℚ) :
    Except String (List ℚ) :=
  if b < a then .error "negative dimensions are not allowed"
  else if b - a = min b seq.length - min a seq.length ∨ b - a = 1 then
    .ok (seq.mapIdx fun i x =>
      if min a seq.length ≤ i ∧ i < min b seq.length then v else x)
  else .error "could not broadcast input array"

/-- The loop `for value in range(len(values)): sequence[...] = ...` of
`piecewise_constant_decay`: iteration `v` assigns the slice
`[bs[v], bs[v+1])` filled with `values[v]`; iterations run in increasing
order of `v`, and a `ValueError` raised inside an iteration aborts the
loop and propagates. -/
def sliceLoop (bs : List ℕ) (values : List ℚ) :
    ℕ → List ℚ → Except String (List ℚ)
  | 0, seq => .ok seq
  | m + 1, seq =>
    match sliceLoop bs values m seq with
    | .error e => .error e
    | .ok sq => assignSliceFull sq (bs.getD m 0) (bs.getD (m + 1) 0)
        (values.getD m 0)

/-- `Schedule.exponential_decay` (schedule.py lines 33-56): element-wise
`initial_value * decay_rate ** (steps/n_steps)`, with the exponent floored
first when `staircase` is true; `**` with real exponent is `Real.rpow`. -/
noncomputable def Schedule.exponential_decay (s : Schedule)
    (initial_value decay_rate : ℝ) (staircase : Bool) : List ℝ :=
  if staircase then
    s.steps.map fun x : ℚ =>
      initial_value * decay_rate ^ ((⌊x / (s.n_steps : ℚ)⌋ : ℝ))
  else
    s.steps.map fun x : ℚ =>
      initial_value * decay_rate ^ (((x / (s.n_steps : ℚ) : ℚ)) : ℝ)

/-- `Schedule.cosine_decay` (schedule.py lines 58-78). -/
noncomputable def Schedule.cosine_decay (s : Schedule)
    (initial_value alpha : ℝ) : List ℝ :=
  s.steps.map fun xq : ℚ =>
    let x : ℝ := min (xq : ℝ) (s.n_steps : ℝ)
    let cosine_decay := 0.5 * (1 + Real.cos (Real.pi * (x / (s.n_steps : ℝ))))
    let decayed := (1 - alpha) * cosine_decay + alpha
    initial_value * decayed

/-- `Schedule.inverse_time_decay` (schedule.py lines 80-110): element-wise
`initial_value / (1 + decay_rate * steps/n_steps)`, flooring the quotient
first when `staircase` is true.  Only field operations and `floor` occur,
so the embedding stays in `ℚ`. -/
def Schedule.inverse_time_decay (s : Schedule)
    (initial_value decay_rate : ℚ) (staircase : Bool) : List ℚ :=
  if staircase then
    s.steps.map fun x : ℚ =>
      initial_value / (1 + decay_rate * (⌊x / (s.n_steps : ℚ)⌋ : ℚ))
  else
    s.steps.map fun x : ℚ =>
      initial_value / (1 + decay_rate * (x / (s.n_steps : ℚ)))

/-- `Schedule.polynomial_decay` (schedule.py lines 112-149); `**` with real
exponent `power` is `Real.rpow`.  In the `cycle` branch the per-element
horizon is `n_steps * ceil(steps/n_steps)`. -/
noncomputable def Schedule.polynomial_decay (s : Schedule)
    (initial_value end_value power : ℝ) (cycle : Bool) : List ℝ :=
  if cycle then
    s.steps.map fun xq : ℚ =>
      let n_steps : ℝ := (s.n_steps : ℝ) * (⌈(xq : ℝ) / (s.n_steps : ℝ)⌉ : ℝ)
      (initial_value - end_value) * (1 - (xq : ℝ) / n_steps) ^ power + end_value
  else
    s.steps.map fun xq : ℚ =>
      let x : ℝ := min (xq : ℝ) (s.n_steps : ℝ)
      (initial_value - end_value) * (1 - x / (s.n_steps : ℝ)) ^ power + end_value

/-- `Schedule.piecewise_constant_decay` (schedule.py lines 151-179): raises
the arity `ValueError` when `len(boundaries) + 1 != len(values)`;
otherwise prepends `0` and appends `n_steps` to `boundaries` and fills
each half-open slice `[boundaries[v], boundaries[v+1])` of a zero array
with `values[v]`, propagating the numpy `ValueError`s of `np.full` and of
the slice assignment (see `assignSliceFull`). -/
def Schedule.piecewise_constant_decay (s : Schedule)
    (boundaries : List ℕ) (values : List ℚ) : Except String (List ℚ) :=
  if boundaries.length + 1 ≠ values.length then
    .error "There should be only one value for each piece of array"
  else
    let bs := (0 :: boundaries) ++ [s.n_steps]
    let seq := List.replicate s.n_steps (0 : ℚ)
    sliceLoop bs values values.length seq

/-- `Schedule.constant` (schedule.py lines 181-193):
`np.full(len(self.steps), value)`. -/
def Schedule.constant (s : Schedule) (value : ℚ) : List ℚ :=
  List.replicate s.steps.length value

/-- `Schedule.geometric_decay` (schedule.py lines 195-218):
`sequence[0] = initial_value`, then
`sequence[i+1] = max(initial_value * decay**i, minimum_value)`
for `i in range(n_steps - 1)`. -/
def Schedule.geometric_decay (s : Schedule)
    (initial_value decay minimum_value : ℚ) : List ℚ :=
  setLoop (fun _ i => max (initial_value * decay ^ i) minimum_value)
    (s.n_steps - 1) ((List.replicate s.n_steps (0 : ℚ)).set 0 initial_value)

/-- `Schedule.arithmetic_decay` (schedule.py lines 220-243):
`sequence[i+1] = max(initial_value - decay * i, minimum_value)`. -/
def Schedule.arithmetic_decay (s : Schedule)
    (initial_value decay minimum_value : ℚ) : List ℚ :=
  setLoop (fun _ i => max (initial_value - decay * (i : ℚ)) minimum_value)
    (s.n_steps - 1) ((List.replicate s.n_steps (0 : ℚ)).set 0 initial_value)

/-- `Schedule.time_decay` (schedule.py lines 245-268):
`sequence[i+1] = sequence[i] / (1 + decay_rate * i)` — a recurrence reading
the previously written output element. -/
def Schedule.time_decay (s : Schedule) (initial_value decay_rate : ℚ) : List ℚ :=
  setLoop (fun sq i => sq.getD i 0 / (1 + decay_rate * (i : ℚ)))
    (s.n_steps - 1) ((List.replicate s.n_steps (0 : ℚ)).set 0 initial_value)

/-- `Schedule.step_decay` (schedule.py lines 270-295):
`sequence[i+1] = initial_value * np.power(drop, np.floor((1 + i) / i_drop))`;
the floored exponent is an integer, so the power is `zpow` on `ℚ`. -/
def Schedule.step_decay (s : Schedule)
    (initial_value drop : ℚ) (i_drop : ℤ) : List ℚ :=
  setLoop (fun _ i => initial_value * drop ^ ⌊(1 + (i : ℚ)) / (i_drop : ℚ)⌋)
    (s.n_steps - 1) ((List.replicate s.n_steps (0 : ℚ)).set 0 initial_value)

/-- Method-call form of `exponential_decay`: the Python body assigns to no
attribute of `self`, so the post-call instance is the input instance. -/
noncomputable def Schedule.exponential_decayM (s : Schedule)
    (initial_value decay_rate : ℝ) (staircase : Bool) : List ℝ × Schedule :=
  (s.exponential_decay initial_value decay_rate staircase, s)

/-- Method-call form of `cosine_decay`; no assignment to `self` occurs. -/
noncomputable def Schedule.cosine_decayM (s : Schedule)
    (initial_value alpha : ℝ) : List ℝ × Schedule :=
  (s.cosine_decay initial_value alpha, s)

/-- Method-call form of `inverse_time_decay`; no assignment to `self`. -/
def Schedule.inverse_time_decayM (s : Schedule)
    (initial_value decay_rate : ℚ) (staircase : Bool) : List ℚ × Schedule :=
  (s.inverse_time_decay initial_value decay_rate staircase, s)

/-- Method-call form of `polynomial_decay`; no assignment to `self`. -/
noncomputable def Schedule.polynomial_decayM (s : Schedule)
    (initial_value end_value power : ℝ) (cycle : Bool) : List ℝ × Schedule :=
  (s.polynomial_decay initial_value end_value power cycle, s)

/-- Method-call form of `piecewise_constant_decay`: the body rebinds only
the local variable `boundaries` and a fresh `sequence`, and assigns to no
attribute of `self` on either the raising or the returning path. -/
def Schedule.piecewise_constant_decayM (s : Schedule)
    (boundaries : List ℕ) (values : List ℚ) :
    Except String (List ℚ) × Schedule :=
  (s.piecewise_constant_decay boundaries values, s)

/-- Method-call form of `constant`; no assignment to `self`. -/
def Schedule.constantM (s : Schedule) (value : ℚ) : List ℚ × Schedule :=
  (s.constant value, s)

/-- Method-call form of `geometric_decay`; no assignment to `self`. -/
def Schedule.geometric_decayM (s : Schedule)
    (initial_value decay minimum_value : ℚ) : List ℚ × Schedule :=
  (s.geometric_decay initial_value decay minimum_value, s)

/-- Method-call form of `arithmetic_decay`; no assignment to `self`. -/
def Schedule.arithmetic_decayM (s : Schedule)
    (initial_value decay minimum_value : ℚ) : List ℚ × Schedule :=
  (s.arithmetic_decay initial_value decay minimum_value, s)

/-- Method-call form of `time_decay`; no assignment to `self`. -/
def Schedule.time_decayM (s : Schedule)
    (initial_value decay_rate : ℚ) : List ℚ × Schedule :=
  (s.time_decay initial_value decay_rate, s)

/-- Method-call form of `step_decay`; no assignment to `self`. -/
def Schedule.step_decayM (s : Schedule)
    (initial_value drop : ℚ) (i_drop : ℤ) : List ℚ × Schedule :=
  (s.step_decay initial_value drop i_drop, s)

/-- The `Schedules` class of `schedules.py`: same instance variables as
`Schedule` (`n_steps` an int, `steps` an ndarray). -/
structure Schedules where
  n_steps : ℕ
  steps : List ℚ
  deriving Repr, DecidableEq

/-- `Schedules.__init__` (schedules.py lines 23-33):
`self.n_steps = n_steps; self.steps = np.linspace(0, n_steps, n_steps)`. -/
def Schedules.init (n_steps : ℕ) : Schedules :=
  ⟨n_steps, linspace 0 n_steps n_steps⟩

/-- `Schedules.exponential_decay` (schedules.py lines 35-57). -/
noncomputable def Schedules.exponential_decay (s : Schedules)
    (initial_value decay_rate : ℝ) (staircase : Bool) : List ℝ :=
  if staircase then
    s.steps.map fun x : ℚ =>
      initial_value * decay_rate ^ ((⌊x / (s.n_steps : ℚ)⌋ : ℝ))
  else
    s.steps.map fun x : ℚ =>
      initial_value * decay_rate ^ (((x / (s.n_steps : ℚ) : ℚ)) : ℝ)

/-- `Schedules.cosine_decay` (schedules.py lines 59-79). -/
noncomputable def Schedules.cosine_decay (s : Schedules)
    (initial_value alpha : ℝ) : List ℝ :=
  s.steps.map fun xq : ℚ =>
    let x : ℝ := min (xq : ℝ) (s.n_steps : ℝ)
    let cosine_decay := 0.5 * (1 + Real.cos (Real.pi * (x / (s.n_steps : ℝ))))
    let decayed := (1 - alpha) * cosine_decay + alpha
    initial_value * decayed

/-- `Schedules.inverse_time_decay` (schedules.py lines 81-105). -/
def Schedules.inverse_time_decay (s : Schedules)
    (initial_value decay_rate : ℚ) (staircase : Bool) : List ℚ :=
  if staircase then
    s.steps.map fun x : ℚ =>
      initial_value / (1 + decay_rate * (⌊x / (s.n_steps : ℚ)⌋ : ℚ))
  else
    s.steps.map fun x : ℚ =>
      initial_value / (1 + decay_rate * (x / (s.n_steps : ℚ)))

/-- `Schedules.polynomial_decay` (schedules.py lines 107-138). -/
noncomputable def Schedules.polynomial_decay (s : Schedules)
    (initial_value end_value power : ℝ) (cycle : Bool) : List ℝ :=
  if cycle then
    s.steps.map fun xq : ℚ =>
      let n_steps : ℝ := (s.n_steps : ℝ) * (⌈(xq : ℝ) / (s.n_steps : ℝ)⌉ : ℝ)
      (initial_value - end_value) * (1 - (xq : ℝ) / n_steps) ^ power + end_value
  else
    s.steps.map fun xq : ℚ =>
      let x : ℝ := min (xq : ℝ) (s.n_steps : ℝ)
      (initial_value - end_value) * (1 - x / (s.n_steps : ℝ)) ^ power + end_value

/-- `Schedules.piecewise_constant_decay` (schedules.py lines 140-167),
with the same numpy error paths as `Schedule.piecewise_constant_decay`. -/
def Schedules.piecewise_constant_decay (s : Schedules)
    (boundaries : List ℕ) (values : List ℚ) : Except String (List ℚ) :=
  if boundaries.length + 1 ≠ values.length then
    .error "There should be only one value for each piece of array"
  else
    let bs := (0 :: boundaries) ++ [s.n_steps]
    let seq := List.replicate s.n_steps (0 : ℚ)
    sliceLoop bs values values.length seq

/-- `Schedules.constant` (schedules.py lines 169-182). -/
def Schedules.constant (s : Schedules) (value : ℚ) : List ℚ :=
  List.replicate s.steps.length value

/-- Guarded division: `some (a / b)` when the divisor is nonzero, `none`
for a division by zero.  Used to instrument a formula so that
reachability of a division by zero is provable. -/
def divGuard (a b : ℚ) : Option ℚ :=
  if b = 0 then none else some (a / b)

/-- The `cycle = True` branch of `Schedule.polynomial_decay` (schedule.py
lines 128-138) with its division `np.divide(self.steps, n_steps)` guarded
by `divGuard`: element-wise horizon `n_steps * ceil(steps/n_steps)`, then
`(initial_value - end_value) * (1 - steps/horizon) ** power + end_value`.
The exponent `power` is taken as an integer so the embedding stays
computable; at an element whose horizon vanishes the result is `none`
before the power is ever applied. -/
def Schedule.polynomial_decay_cycle_guarded (s : Schedule)
    (initial_value end_value : ℚ) (power : ℤ) : List (Option ℚ) :=
  s.steps.map fun xq : ℚ =>
    let n_steps : ℚ := (s.n_steps : ℚ) * (⌈xq / (s.n_steps : ℚ)⌉ : ℚ)
    (divGuard xq n_steps).map fun q =>
      (initial_value - end_value) * (1 - q) ^ power + end_value

theorem linspace_length (start stop : ℚ) (num : ℕ) :
    (linspace start stop num).length = num := by
  unfold linspace
  split <;> simp

theorem Schedule.init_steps_length (n : ℕ) : (Schedule.init n).steps.length = n :=
  linspace_length 0 n n

theorem linspace_getElem (start stop : ℚ) (num : ℕ) (hnum : 1 < num)
    (i : ℕ) (hi : i < (linspace start stop num).length) :
    (linspace start stop num)[i] = start + (stop - start) * i / ((num : ℚ) - 1) := by
  have heq : linspace start stop num = (List.range num).map fun i : ℕ =>
      start + (stop - start) * (i : ℚ) / ((num : ℚ) - 1) := by
    unfold linspace
    rw [if_neg (by omega)]
  rw [List.getElem_of_eq heq]
  simp only [List.getElem_map, List.getElem_range]

/-- Element `i` of the base array for `n ≥ 2` equals `i * n / (n - 1)`. -/
theorem Schedule.init_steps_getD (n : ℕ) (hn : 1 < n) (i : ℕ) (hi : i < n) :
    (Schedule.init n).steps.getD i 0 = (i : ℚ) * n / ((n : ℚ) - 1) := by
  have hlen : i < (linspace 0 n n).length := by rw [linspace_length]; exact hi
  rw [Schedule.init, List.getD_eq_getElem _ _ hlen, linspace_getElem 0 n n hn i hlen]
  ring

/-- The base array starts at `0` for every `n ≥ 1`. -/
theorem Schedule.init_steps_getD_zero (n : ℕ) (hn : 1 ≤ n) :
    (Schedule.init n).steps.getD 0 0 = 0 := by
  rcases Nat.lt_or_ge 1 n with h | h
  · rw [Schedule.init_steps_getD n h 0 (by omega)]; simp
  · have hn1 : n = 1 := by omega
    subst hn1
    rfl

/-- C1: for every integer `n_steps ≥ 1`, construction sets `n_steps`, gives
the base array exactly `n_steps` elements, monotonically non-decreasing,
with `steps[i] = i * n_steps / (n_steps - 1)` for `i < n_steps` when
`n_steps > 1` (hence `steps[0] = 0` and `steps[n_steps-1] = n_steps`),
and `steps = [0]` when `n_steps = 1`. -/
theorem C1_construction (n : ℕ) (hn : 1 ≤ n) :
    (Schedule.init n).n_steps = n ∧
    (Schedule.init n).steps.length = n ∧
    (Schedule.init n).steps.Sorted (· ≤ ·) ∧
    (1 < n → ∀ i, i < n →
      (Schedule.init n).steps.getD i 0 = (i : ℚ) * n / ((n : ℚ) - 1)) ∧
    (1 < n → (Schedule.init n).steps.getD 0 0 = 0 ∧
      (Schedule.init n).steps.getD (n - 1) 0 = n) ∧
    (n = 1 → (Schedule.init n).steps = [0]) := by
  refine ⟨rfl, Schedule.init_steps_length n, ?_, ?_, ?_, ?_⟩
  · show (linspace 0 n n).Sorted (· ≤ ·)
    unfold linspace
    split
    · have hn1 : n = 1 := by omega
      subst hn1
      simp
    · rename_i hgt
      have hden : (0 : ℚ) < (n : ℚ) - 1 := by
        have : (2 : ℚ) ≤ (n : ℚ) := by exact_mod_cast (by omega : 2 ≤ n)
        linarith
      refine List.Pairwise.map _ ?_ (List.pairwise_lt_range n)
      intro a b hab
      have hab' : (a : ℚ) ≤ (b : ℚ) := by exact_mod_cast Nat.le_of_lt hab
      have hnn : (0 : ℚ) ≤ (n : ℚ) - 0 := by
        have : (2 : ℚ) ≤ (n : ℚ) := by exact_mod_cast (by omega : 2 ≤ n)
        linarith
      gcongr
  · exact fun h i hi => Schedule.init_steps_getD n h i hi
  · intro h
    constructor
    · exact Schedule.init_steps_getD_zero n hn
    · rw [Schedule.init_steps_getD n h (n - 1) (by omega)]
      have hne : ((n : ℚ) - 1) ≠ 0 := by
        have : (2 : ℚ) ≤ (n : ℚ) := by exact_mod_cast (by omega : 2 ≤ n)
        intro hc; linarith
      have hcast : ((n - 1 : ℕ) : ℚ) = (n : ℚ) - 1 := by
        have : (1 : ℕ) ≤ n := hn
        push_cast [Nat.cast_sub this]
        ring
      rw [hcast]
      field_simp
  · intro h
    subst h
    rfl

theorem C1_construction_witness :
    1 ≤ 3 ∧
    ((Schedule.init 3).n_steps = 3 ∧
    (Schedule.init 3).steps.length = 3 ∧
    (Schedule.init 3).steps.Sorted (· ≤ ·) ∧
    (1 < 3 → ∀ i, i < 3 →
      (Schedule.init 3).steps.getD i 0 = (i : ℚ) * 3 / ((3 : ℚ) - 1)) ∧
    (1 < 3 → (Schedule.init 3).steps.getD 0 0 = 0 ∧
      (Schedule.init 3).steps.getD (3 - 1) 0 = 3) ∧
    (3 = 1 → (Schedule.init 3).steps = [0])) :=
  ⟨by decide, C1_construction 3 (by decide)⟩

theorem getD_set_ne (l : List ℚ) (i j : ℕ) (h : i ≠ j) (a d : ℚ) :
    (l.set i a).getD j d = l.getD j d := by
  rw [List.getD_eq_getElem?_getD, List.getD_eq_getElem?_getD,
    List.getElem?_set_ne h]

theorem getD_set_self (l : List ℚ) (i : ℕ) (h : i < l.length) (a d : ℚ) :
    (l.set i a).getD i d = a := by
  rw [List.getD_eq_getElem?_getD, List.getElem?_set_eq_of_lt a h]
  rfl

theorem setLoop_length (f : List ℚ → ℕ → ℚ) (m : ℕ) (seq : List ℚ) :
    (setLoop f m seq).length = seq.length := by
  induction m with
  | zero => rfl
  | succ m ih => simp only [setLoop, List.length_set, ih]

theorem setLoop_getD_stable (f : List ℚ → ℕ → ℚ) (m k : ℕ) (hk : k ≤ m)
    (seq : List ℚ) (d : ℚ) :
    (setLoop f m seq).getD k d = (setLoop f k seq).getD k d := by
  induction m with
  | zero =>
    have : k = 0 := by omega
    subst this
    rfl
  | succ m ih =>
    rcases Nat.eq_or_lt_of_le hk with h | h
    · subst h
      rfl
    · have hk' : k ≤ m := by omega
      show ((setLoop f m seq).set (m + 1) _).getD k d = _
      rw [getD_set_ne _ _ _ (by omega), ih hk']

theorem setLoop_getD_succ (f : List ℚ → ℕ → ℚ) (m j : ℕ) (seq : List ℚ)
    (d : ℚ) (hj : j < m) (hlen : j + 1 < seq.length) :
    (setLoop f m seq).getD (j + 1) d = f (setLoop f j seq) j := by
  rw [setLoop_getD_stable f m (j + 1) (by omega) seq d]
  show ((setLoop f j seq).set (j + 1) (f (setLoop f j seq) j)).getD (j + 1) d = _
  exact getD_set_self _ _ (by rw [setLoop_length]; exact hlen) _ _

theorem loop_base_length (n : ℕ) (initial : ℚ) :
    ((List.replicate n (0 : ℚ)).set 0 initial).length = n := by
  simp

theorem loop_getD_zero (f : List ℚ → ℕ → ℚ) (n : ℕ) (hn : 1 ≤ n)
    (initial d : ℚ) :
    (setLoop f (n - 1) ((List.replicate n (0 : ℚ)).set 0 initial)).getD 0 d
      = initial := by
  rw [setLoop_getD_stable f (n - 1) 0 (Nat.zero_le _) _ d]
  exact getD_set_self _ 0 (by simp; omega) initial d

theorem assignSliceFull_error_msg (seq : List ℚ) (a b : ℕ) (v : ℚ)
    (e : String) (h : assignSliceFull seq a b v = .error e) :
    e = "negative dimensions are not allowed"
      ∨ e = "could not broadcast input array" := by
  unfold assignSliceFull at h
  split at h
  · cases h
    exact Or.inl rfl
  · split at h
    · exact Except.noConfusion h
    · cases h
      exact Or.inr rfl

theorem sliceLoop_error_msg (bs : List ℕ) (values : List ℚ) (m : ℕ)
    (seq : List ℚ) (e : String) (h : sliceLoop bs values m seq = .error e) :
    e = "negative dimensions are not allowed"
      ∨ e = "could not broadcast input array" := by
  induction m generalizing e with
  | zero => exact Except.noConfusion h
  | succ m ih =>
    unfold sliceLoop at h
    split at h
    · rename_i e' he'
      cases h
      exact ih _ he'
    · exact assignSliceFull_error_msg _ _ _ _ _ h

/-- C2: each of the six methods defined in both classes returns the
identical sequence, and signals an error under identical conditions, when
called on a `Schedule` (schedule.py) and on a `Schedules` (schedules.py)
instance constructed with the same `n_steps`.  The
`piecewise_constant_decay` conjunct compares the full `Except` results, so
the raising conditions coincide as well; the other five methods never
raise in either class. -/
theorem C2_duplicate_classes_agree :
    (∀ (n : ℕ) (iv dr : ℝ) (st : Bool),
      (Schedule.init n).exponential_decay iv dr st
        = (Schedules.init n).exponential_decay iv dr st) ∧
    (∀ (n : ℕ) (iv alpha : ℝ),
      (Schedule.init n).cosine_decay iv alpha
        = (Schedules.init n).cosine_decay iv alpha) ∧
    (∀ (n : ℕ) (iv dr : ℚ) (st : Bool),
      (Schedule.init n).inverse_time_decay iv dr st
        = (Schedules.init n).inverse_time_decay iv dr st) ∧
    (∀ (n : ℕ) (iv ev pw : ℝ) (cy : Bool),
      (Schedule.init n).polynomial_decay iv ev pw cy
        = (Schedules.init n).polynomial_decay iv ev pw cy) ∧
    (∀ (n : ℕ) (b : List ℕ) (v : List ℚ),
      (Schedule.init n).piecewise_constant_decay b v
        = (Schedules.init n).piecewise_constant_decay b v) ∧
    (∀ (n : ℕ) (v : ℚ),
      (Schedule.init n).constant v = (Schedules.init n).constant v) :=
  ⟨fun _ _ _ _ => rfl, fun _ _ _ => rfl, fun _ _ _ _ => rfl,
   fun _ _ _ _ _ => rfl, fun _ _ _ => rfl, fun _ _ => rfl⟩

/-- C5: `geometric_decay(initial, decay, min_value)` has element `0` equal
to `initial_value` and element `i` (for `1 ≤ i < n_steps`) equal to
`max(initial_value * decay^(i-1), minimum_value)`; in particular
`geometric_decay(10, 0.5, 1)` on `n_steps = 4` returns `[10, 10, 5, 2.5]`. -/
theorem C5_geometric_decay (n : ℕ) (hn : 1 ≤ n)
    (initial_value decay minimum_value : ℚ) :
    ((Schedule.init n).geometric_decay initial_value decay
      minimum_value).getD 0 0 = initial_value ∧
    (∀ i, 1 ≤ i → i < n →
      ((Schedule.init n).geometric_decay initial_value decay
        minimum_value).getD i 0
        = max (initial_value * decay ^ (i - 1)) minimum_value) ∧
    (Schedule.init 4).geometric_decay 10 (1/2) 1 = [10, 10, 5, 5/2] := by
  refine ⟨loop_getD_zero _ n hn initial_value 0, ?_, ?_⟩
  case refine_2 =>
    show setLoop (fun _ i => max ((10 : ℚ) * (1/2) ^ i) 1) 3
        ((List.replicate 4 (0 : ℚ)).set 0 10) = [10, 10, 5, 5/2]
    simp only [setLoop, List.replicate, List.set]
    norm_num
  intro i h1 hi
  obtain ⟨j, rfl⟩ : ∃ j, i = j + 1 := ⟨i - 1, by omega⟩
  show (setLoop (fun _ i => max (initial_value * decay ^ i) minimum_value)
      (n - 1) ((List.replicate n (0 : ℚ)).set 0 initial_value)).getD (j + 1) 0
    = max (initial_value * decay ^ (j + 1 - 1)) minimum_value
  rw [setLoop_getD_succ _ _ _ _ _ (by omega)
    (by rw [loop_base_length]; omega)]
  simp

theorem C5_geometric_decay_witness :
    ((Schedule.init 4).geometric_decay 10 (1/2) 1).getD 0 0 = 10 ∧
    ((Schedule.init 4).geometric_decay 10 (1/2) 1).getD 3 0
      = max ((10 : ℚ) * (1/2) ^ (3 - 1)) 1 :=
  ⟨(C5_geometric_decay 4 (by decide) 10 (1/2) 1).1,
   (C5_geometric_decay 4 (by decide) 10 (1/2) 1).2.1 3 (by decide) (by decide)⟩

/-- C6: for nonzero `i_drop`, `step_decay(initial, drop, i_drop)` has
element `0` equal to `initial_value` and element `i` (for
`1 ≤ i < n_steps`) equal to `initial_value * drop^floor(i / i_drop)`; in
particular `step_decay(1.0, 0.5, 2)` on `n_steps = 5` returns
`[1.0, 1.0, 0.5, 0.5, 0.25]`. -/
theorem C6_step_decay (n : ℕ) (hn : 1 ≤ n) (initial_value drop : ℚ)
    (i_drop : ℤ) (hdrop : i_drop ≠ 0) :
    ((Schedule.init n).step_decay initial_value drop i_drop).getD 0 0
      = initial_value ∧
    (∀ i, 1 ≤ i → i < n →
      ((Schedule.init n).step_decay initial_value drop i_drop).getD i 0
        = initial_value * drop ^ ⌊(i : ℚ) / (i_drop : ℚ)⌋) ∧
    (Schedule.init 5).step_decay 1 (1/2) 2 = [1, 1, 1/2, 1/2, 1/4] := by
  refine ⟨loop_getD_zero _ n hn initial_value 0, ?_, ?_⟩
  case refine_2 =>
    show setLoop
        (fun _ i => (1 : ℚ) * (1/2) ^ ⌊(1 + (i : ℚ)) / ((2 : ℤ) : ℚ)⌋) 4
        ((List.replicate 5 (0 : ℚ)).set 0 1) = [1, 1, 1/2, 1/2, 1/4]
    simp only [setLoop, List.replicate, List.set]
    norm_num
  intro i h1 hi
  obtain ⟨j, rfl⟩ : ∃ j, i = j + 1 := ⟨i - 1, by omega⟩
  show (setLoop
      (fun _ i => initial_value * drop ^ ⌊(1 + (i : ℚ)) / (i_drop : ℚ)⌋)
      (n - 1) ((List.replicate n (0 : ℚ)).set 0 initial_value)).getD (j + 1) 0
    = initial_value * drop ^ ⌊((j + 1 : ℕ) : ℚ) / (i_drop : ℚ)⌋
  rw [setLoop_getD_succ _ _ _ _ _ (by omega)
    (by rw [loop_base_length]; omega)]
  have hc : ((j + 1 : ℕ) : ℚ) = 1 + (j : ℚ) := by push_cast; ring
  rw [hc]

theorem C6_step_decay_witness :
    ((Schedule.init 5).step_decay 1 (1/2) 2).getD 0 0 = 1 ∧
    ((Schedule.init 5).step_decay 1 (1/2) 2).getD 4 0
      = 1 * (1/2 : ℚ) ^ ⌊((4 : ℕ) : ℚ) / ((2 : ℤ) : ℚ)⌋ :=
  ⟨(C6_step_decay 5 (by decide) 1 (1/2) 2 (by decide)).1,
   (C6_step_decay 5 (by decide) 1 (1/2) 2 (by decide)).2.1 4
     (by decide) (by decide)⟩

/-- C7: `time_decay(initial, rate)` has element `0` equal to
`initial_value` and element `i` (for `1 ≤ i < n_steps`) equal to the
previously produced output element `i - 1` divided by
`1 + decay_rate * (i - 1)` — a recurrence on the output sequence itself. -/
theorem C7_time_decay (n : ℕ) (hn : 1 ≤ n) (initial_value decay_rate : ℚ) :
    ((Schedule.init n).time_decay initial_value decay_rate).getD 0 0
      = initial_value ∧
    (∀ i, 1 ≤ i → i < n →
      ((Schedule.init n).time_decay initial_value decay_rate).getD i 0
        = ((Schedule.init n).time_decay initial_value decay_rate).getD
            (i - 1) 0 / (1 + decay_rate * ((i : ℚ) - 1))) := by
  refine ⟨loop_getD_zero _ n hn initial_value 0, ?_⟩
  intro i h1 hi
  obtain ⟨j, rfl⟩ : ∃ j, i = j + 1 := ⟨i - 1, by omega⟩
  show (setLoop (fun sq i => sq.getD i 0 / (1 + decay_rate * (i : ℚ)))
      (n - 1) ((List.replicate n (0 : ℚ)).set 0 initial_value)).getD (j + 1) 0
    = (setLoop (fun sq i => sq.getD i 0 / (1 + decay_rate * (i : ℚ)))
      (n - 1) ((List.replicate n (0 : ℚ)).set 0 initial_value)).getD
        (j + 1 - 1) 0 / (1 + decay_rate * (((j + 1 : ℕ) : ℚ) - 1))
  rw [setLoop_getD_succ _ _ _ _ _ (by omega)
    (by rw [loop_base_length]; omega)]
  rw [Nat.add_sub_cancel]
  rw [setLoop_getD_stable _ (n - 1) j (by omega)
    ((List.replicate n (0 : ℚ)).set 0 initial_value) 0]
  have hc : (((j + 1 : ℕ) : ℚ) - 1) = (j : ℚ) := by push_cast; ring
  rw [hc]

theorem C7_time_decay_witness :
    ((Schedule.init 3).time_decay 6 1).getD 0 0 = 6 ∧
    ((Schedule.init 3).time_decay 6 1).getD 2 0
      = ((Schedule.init 3).time_decay 6 1).getD (2 - 1) 0
          / (1 + 1 * (((2 : ℕ) : ℚ) - 1)) :=
  ⟨(C7_time_decay 3 (by decide) 6 1).1,
   (C7_time_decay 3 (by decide) 6 1).2 2 (by decide) (by decide)⟩

/-- C3 counterexample: with `n_steps = 6`, `boundaries = [4, 2]`,
`values = [1, 2, 3]` the arity is correct, yet the call raises a
`ValueError` (`np.full(2 - 4, 2)` has a negative size), refuting the
claimed equivalence between raising and the arity mismatch. -/
theorem C3_piecewise_validation_counterexample :
    ¬ ((∃ e, (Schedule.init 6).piecewise_constant_decay [4, 2] [1, 2, 3]
        = .error e)
      ↔ ([1, 2, 3] : List ℚ).length ≠ ([4, 2] : List ℕ).length + 1) :=
  fun h => (h.mp ⟨_, rfl⟩) rfl

/-- C3 (amended): `piecewise_constant_decay` signals the arity validation
error (its dedicated message) exactly when
`len(values) != len(boundaries) + 1`; an arity-correct call can still
raise a numpy `ValueError` (negative `np.full` size or broadcast
mismatch) when the boundaries do not monotonically partition
`[0, n_steps)`; whenever it raises, the generator state is unchanged;
with `boundaries = [2,4]`, `values = [1,2]` it raises, and with
`boundaries = [2,4]`, `values = [1,2,3]` on `n_steps = 6` it returns
`[1, 1, 2, 2, 3, 3]`. -/
theorem C3_piecewise_validation :
    (∀ (n : ℕ) (b : List ℕ) (v : List ℚ),
      ((Schedule.init n).piecewise_constant_decay b v
          = .error "There should be only one value for each piece of array")
        ↔ v.length ≠ b.length + 1) ∧
    (∀ (n : ℕ) (b : List ℕ) (v : List ℚ) (e : String),
      (Schedule.init n).piecewise_constant_decay b v = .error e →
        e = "There should be only one value for each piece of array"
          ∨ e = "negative dimensions are not allowed"
          ∨ e = "could not broadcast input array") ∧
    (∀ (n : ℕ) (b : List ℕ) (v : List ℚ) (e : String),
      (Schedule.init n).piecewise_constant_decay b v = .error e →
      ((Schedule.init n).piecewise_constant_decayM b v).2
        = Schedule.init n) ∧
    (∃ e, (Schedule.init 6).piecewise_constant_decay [2, 4] [1, 2]
      = .error e) ∧
    (Schedule.init 6).piecewise_constant_decay [2, 4] [1, 2, 3]
      = .ok [1, 1, 2, 2, 3, 3] := by
  refine ⟨?_, ?_, fun _ _ _ _ _ => rfl, ⟨_, rfl⟩, ?_⟩
  · intro n b v
    rw [Schedule.piecewise_constant_decay]
    by_cases h : b.length + 1 = v.length
    · rw [if_neg (by omega)]
      constructor
      · intro he
        exfalso
        rcases sliceLoop_error_msg _ _ _ _ _ he with h' | h' <;>
          exact absurd h' (by decide)
      · intro hv
        exact absurd h.symm hv
    · rw [if_pos h]
      constructor
      · intro _
        omega
      · intro _
        rfl
  · intro n b v e he
    rw [Schedule.piecewise_constant_decay] at he
    by_cases h : b.length + 1 = v.length
    · rw [if_neg (by omega)] at he
      rcases sliceLoop_error_msg _ _ _ _ _ he with h' | h'
      · exact Or.inr (Or.inl h')
      · exact Or.inr (Or.inr h')
    · rw [if_pos h] at he
      cases he
      exact Or.inl rfl
  · rfl

theorem C3_piecewise_validation_witness :
    ((Schedule.init 6).piecewise_constant_decayM [2, 4] [1, 2]).2
      = Schedule.init 6 :=
  C3_piecewise_validation.2.2.1 6 [2, 4] [1, 2]
    "There should be only one value for each piece of array" rfl

/-- C8: every decay method call leaves the generator state unchanged (the
second component of each method-call form equals the input instance, on
the raising path of `piecewise_constant_decay` as well), and repeating the
same call with identical parameters yields an identical output sequence. -/
theorem C8_no_mutation_idempotent :
    (∀ (s : Schedule) (iv dr : ℝ) (st : Bool),
      (s.exponential_decayM iv dr st).2 = s ∧
      ((s.exponential_decayM iv dr st).2.exponential_decayM iv dr st).1
        = (s.exponential_decayM iv dr st).1) ∧
    (∀ (s : Schedule) (iv alpha : ℝ),
      (s.cosine_decayM iv alpha).2 = s ∧
      ((s.cosine_decayM iv alpha).2.cosine_decayM iv alpha).1
        = (s.cosine_decayM iv alpha).1) ∧
    (∀ (s : Schedule) (iv dr : ℚ) (st : Bool),
      (s.inverse_time_decayM iv dr st).2 = s ∧
      ((s.inverse_time_decayM iv dr st).2.inverse_time_decayM iv dr st).1
        = (s.inverse_time_decayM iv dr st).1) ∧
    (∀ (s : Schedule) (iv ev pw : ℝ) (cy : Bool),
      (s.polynomial_decayM iv ev pw cy).2 = s ∧
      ((s.polynomial_decayM iv ev pw cy).2.polynomial_decayM iv ev pw cy).1
        = (s.polynomial_decayM iv ev pw cy).1) ∧
    (∀ (s : Schedule) (b : List ℕ) (v : List ℚ),
      (s.piecewise_constant_decayM b v).2 = s ∧
      ((s.piecewise_constant_decayM b v).2.piecewise_constant_decayM b v).1
        = (s.piecewise_constant_decayM b v).1) ∧
    (∀ (s : Schedule) (v : ℚ),
      (s.constantM v).2 = s ∧
      ((s.constantM v).2.constantM v).1 = (s.constantM v).1) ∧
    (∀ (s : Schedule) (iv d mv : ℚ),
      (s.geometric_decayM iv d mv).2 = s ∧
      ((s.geometric_decayM iv d mv).2.geometric_decayM iv d mv).1
        = (s.geometric_decayM iv d mv).1) ∧
    (∀ (s : Schedule) (iv d mv : ℚ),
      (s.arithmetic_decayM iv d mv).2 = s ∧
      ((s.arithmetic_decayM iv d mv).2.arithmetic_decayM iv d mv).1
        = (s.arithmetic_decayM iv d mv).1) ∧
    (∀ (s : Schedule) (iv dr : ℚ),
      (s.time_decayM iv dr).2 = s ∧
      ((s.time_decayM iv dr).2.time_decayM iv dr).1
        = (s.time_decayM iv dr).1) ∧
    (∀ (s : Schedule) (iv dp : ℚ) (idp : ℤ),
      (s.step_decayM iv dp idp).2 = s ∧
      ((s.step_decayM iv dp idp).2.step_decayM iv dp idp).1
        = (s.step_decayM iv dp idp).1) :=
  ⟨fun _ _ _ _ => ⟨rfl, rfl⟩, fun _ _ _ => ⟨rfl, rfl⟩,
   fun _ _ _ _ => ⟨rfl, rfl⟩, fun _ _ _ _ _ => ⟨rfl, rfl⟩,
   fun _ _ _ => ⟨rfl, rfl⟩, fun _ _ => ⟨rfl, rfl⟩,
   fun _ _ _ _ => ⟨rfl, rfl⟩, fun _ _ _ _ => ⟨rfl, rfl⟩,
   fun _ _ _ => ⟨rfl, rfl⟩, fun _ _ _ _ => ⟨rfl, rfl⟩⟩

theorem Schedule.init_steps_getElem? (n : ℕ) (hn : 1 < n) (i : ℕ)
    (hi : i < n) :
    (Schedule.init n).steps[i]? = some ((i : ℚ) * n / ((n : ℚ) - 1)) := by
  have hb : i < (Schedule.init n).steps.length := by
    rw [Schedule.init_steps_length]; exact hi
  rw [List.getElem?_eq_getElem hb, ← List.getD_eq_getElem _ 0 hb,
    Schedule.init_steps_getD n hn i hi]

theorem Schedule.init_steps_getElem?_zero (n : ℕ) (hn : 1 ≤ n) :
    (Schedule.init n).steps[0]? = some 0 := by
  have hb : 0 < (Schedule.init n).steps.length := by
    rw [Schedule.init_steps_length]; omega
  rw [List.getElem?_eq_getElem hb, ← List.getD_eq_getElem _ 0 hb,
    Schedule.init_steps_getD_zero n hn]

/-- C9: for `n_steps ≥ 2`, `exponential_decay(initial, rate, staircase =
True)` returns `initial_value` at every index `i ≤ n_steps - 2` and
`initial_value * decay_rate` at the last index only: the staircase
exponent `floor(steps[i] / n_steps) = floor(i / (n_steps - 1))` is `0` for
`i < n_steps - 1` and exactly `1` at `i = n_steps - 1`. -/
theorem C9_exponential_staircase (n : ℕ) (hn : 2 ≤ n)
    (initial_value decay_rate : ℝ) :
    ∀ i, i < n →
      ((Schedule.init n).exponential_decay initial_value decay_rate
        true).getD i 0
        = if i = n - 1 then initial_value * decay_rate
          else initial_value := by
  intro i hi
  have hn1 : (1 : ℚ) < (n : ℚ) := by exact_mod_cast (by omega : 1 < n)
  have hnq : (0 : ℚ) < (n : ℚ) := by linarith
  have hd : (0 : ℚ) < (n : ℚ) - 1 := by linarith
  show ((Schedule.init n).steps.map fun x : ℚ =>
      initial_value * decay_rate
        ^ ((⌊x / (((Schedule.init n).n_steps : ℕ) : ℚ)⌋ : ℝ))).getD i 0 = _
  rw [List.getD_eq_getElem?_getD, List.getElem?_map,
    Schedule.init_steps_getElem? n (by omega) i hi]
  simp only [Option.map_some', Option.getD_some, Schedule.init]
  have hquot : ((i : ℚ) * n / ((n : ℚ) - 1)) / (n : ℚ)
      = (i : ℚ) / ((n : ℚ) - 1) := by
    field_simp
    ring
  rw [hquot]
  by_cases hie : i = n - 1
  · subst hie
    have hcast : (((n - 1 : ℕ)) : ℚ) = (n : ℚ) - 1 := by
      push_cast [Nat.cast_sub (by omega : 1 ≤ n)]
      ring
    rw [hcast, div_self (by linarith), Int.floor_one, if_pos rfl]
    rw [show ((1 : ℤ) : ℝ) = ((1 : ℤ) : ℝ) from rfl, Real.rpow_intCast,
      zpow_one]
  · have hilt : (i : ℚ) < (n : ℚ) - 1 := by
      have : i < n - 1 := by omega
      have h2 : ((i : ℚ)) < ((n - 1 : ℕ) : ℚ) := by exact_mod_cast this
      have hcast : (((n - 1 : ℕ)) : ℚ) = (n : ℚ) - 1 := by
        push_cast [Nat.cast_sub (by omega : 1 ≤ n)]
        ring
      linarith [hcast ▸ h2]
    have hfl : ⌊(i : ℚ) / ((n : ℚ) - 1)⌋ = 0 := by
      rw [Int.floor_eq_zero_iff]
      constructor
      · positivity
      · rw [div_lt_one hd]
        exact hilt
    rw [hfl, if_neg hie]
    rw [show ((0 : ℤ) : ℝ) = ((0 : ℤ) : ℝ) from rfl, Real.rpow_intCast,
      zpow_zero, mul_one]

theorem C9_exponential_staircase_witness :
    ((Schedule.init 3).exponential_decay 5 7 true).getD 0 0
      = (if 0 = 3 - 1 then (5 : ℝ) * 7 else 5) ∧
    ((Schedule.init 3).exponential_decay 5 7 true).getD 2 0
      = (if 2 = 3 - 1 then (5 : ℝ) * 7 else 5) :=
  ⟨C9_exponential_staircase 3 (by omega) 5 7 0 (by omega),
   C9_exponential_staircase 3 (by omega) 5 7 2 (by omega)⟩

/-- C10: in the `cycle = True` branch of `polynomial_decay`, the
per-element horizon at element `0` is `n_steps * ceil(steps[0]/n_steps)
= 0`, and the division of `steps[0] = 0` by this zero horizon makes
element `0` of the guarded embedding `none`: the division-by-zero branch
is reachable and no guard in the code prevents it. -/
theorem C10_polynomial_cycle_div_zero (n : ℕ) (hn : 1 ≤ n)
    (initial_value end_value : ℚ) (power : ℤ) :
    (n : ℚ) * (⌈(Schedule.init n).steps.getD 0 0 / (n : ℚ)⌉ : ℚ) = 0 ∧
    ((Schedule.init n).polynomial_decay_cycle_guarded initial_value
      end_value power).getD 0 (some 37) = none := by
  have h0 : (Schedule.init n).steps.getD 0 0 = 0 :=
    Schedule.init_steps_getD_zero n hn
  constructor
  · rw [h0]
    simp
  · show ((Schedule.init n).steps.map fun xq : ℚ =>
        let n_steps : ℚ := (((Schedule.init n).n_steps : ℕ) : ℚ)
          * (⌈xq / (((Schedule.init n).n_steps : ℕ) : ℚ)⌉ : ℚ)
        (divGuard xq n_steps).map fun q =>
          (initial_value - end_value) * (1 - q) ^ power
            + end_value).getD 0 (some 37) = none
    rw [List.getD_eq_getElem?_getD, List.getElem?_map,
      Schedule.init_steps_getElem?_zero n hn]
    simp [divGuard]

theorem C10_polynomial_cycle_div_zero_witness :
    ((3 : ℕ) : ℚ)
        * (⌈(Schedule.init 3).steps.getD 0 0 / ((3 : ℕ) : ℚ)⌉ : ℚ) = 0 ∧
    ((Schedule.init 3).polynomial_decay_cycle_guarded 1 0 2).getD 0
      (some 37) = none :=
  C10_polynomial_cycle_div_zero 3 (by omega) 1 0 2
